import Mathlib

/-!
Shallow embedding of the struct ↔ row mapping engine of package `otsutils`
(`parser.go`: `ParseObj` and `ParseResult`).

Modelling conventions:
* a Go struct instance is a `List Field` in declaration order; only exported
  fields are modelled (reflection on unexported fields would panic inside
  `ParseObj` before any of the behaviour specified here is reached, and such
  fields are skipped by `CanSet` in `ParseResult`);
* a Go `*string` / `*int64` / `*[]byte` field value is an `Option Value`
  (`none` = nil pointer); `int64` payloads are carried opaquely as `Int` and
  `[]byte` as `List Nat` — the engine never computes with them, it only moves
  them, so no overflow arithmetic arises;
* declared Go types outside the supported set are carried with the strings
  Go's `%s`/`Kind()` formatting would print for them, which is all the code
  ever does with them (error messages);
* Go errors are modelled as their `Error()` strings; `fmt.Errorf("%q")` on the
  plain column names used here prints `"name"`;
* `ParseObj` returns `(nil, nil, err)` on failure; this is the `.error`
  branch of the `Except`, which carries no lists;
* the logging statements in the source write to a discarded logger and have
  no observable effect, so they are not modelled;
* Go's `sort.Slice` is an unstable but deterministic sort; for fewer than 12
  elements it is exactly insertion sort with the given `less`, which is what
  `sortPkFields` implements.  The two agree whenever the `pk` ordinals are
  distinct, and on short records (the only sizes pinned by concrete claims)
  they agree everywhere.
-/

namespace OtsUtils

/-- Decidable equality for `Except` results, so concrete runs can be checked
by `decide`. -/
instance {e a : Type} [DecidableEq e] [DecidableEq a] : DecidableEq (Except e a) := fun x y =>
  match x, y with
  | .ok u, .ok v =>
    if h : u = v then .isTrue (by rw [h]) else .isFalse (by intro hc; cases hc; exact h rfl)
  | .error u, .error v =>
    if h : u = v then .isTrue (by rw [h]) else .isFalse (by intro hc; cases hc; exact h rfl)
  | .ok _, .error _ => .isFalse (by intro hc; cases hc)
  | .error _, .ok _ => .isFalse (by intro hc; cases hc)

/-- Runtime value carried through a key/value pair: the Go `any` restricted to
the three kinds the mapping engine moves (`string`, `int64`, `[]byte`). -/
inductive Value where
  | str (s : String)
  | int (n : Int)
  | bytes (b : List Nat)
deriving DecidableEq

/-- The string Go's `%T` verb prints for a carried value (`[]byte` is
`[]uint8`). -/
def goTypeName : Value → String
  | .str _ => "string"
  | .int _ => "int64"
  | .bytes _ => "[]uint8"

/-- Declared Go type of a struct field.  The three pointer types accepted by
the engine are explicit constructors; all other declared types are modelled by
the strings Go would print for them (the full type via `%s`, and the kind or
element type used by the error branches of `assignToPointerField`). -/
inductive FieldType where
  | ptrStr
  | ptrInt64
  | ptrBytes
  | ptrOther (typeStr kindStr : String)
  | ptrSliceOther (typeStr elemTypeStr : String)
  | nonPtr (typeStr kindStr : String)
deriving DecidableEq

/-- Go `%s` formatting of the declared field type (`field.Type()`). -/
def FieldType.typeName : FieldType → String
  | .ptrStr => "*string"
  | .ptrInt64 => "*int64"
  | .ptrBytes => "*[]uint8"
  | .ptrOther t _ => t
  | .ptrSliceOther t _ => t
  | .nonPtr t _ => t

/-- The `isValidPointerType` closure of `ParseObj`: pointer to `string`,
`int64` or `[]byte`. -/
def isValidPointerType : FieldType → Bool
  | .ptrStr => true
  | .ptrInt64 => true
  | .ptrBytes => true
  | _ => false

/-- One struct field of a record instance: Go field name, the verbatim
`json:"..."` tag, the `pk:"..."` tag (`""` when absent), declared type and
current value (`none` = nil pointer). -/
structure Field where
  name : String
  jsonTag : String
  pkTag : String
  ftype : FieldType
  value : Option Value
deriving DecidableEq

/-- The `KeyValue` struct of the package. -/
structure KeyValue where
  key : String
  value : Value
deriving DecidableEq

/-- The local `pkField` accumulator struct of `ParseObj`. -/
structure PkField where
  jsonTag : String
  pkTag : String
  value : Value
deriving DecidableEq

/-- The message of the `InvalidFieldType` error of `ParseObj`. -/
def invalidFieldTypeMsg (f : Field) : String :=
  "field " ++ f.name ++ " has invalid type: " ++ f.ftype.typeName ++
    ". Only *string, *int64, and *[]byte are allowed"

/-- The per-field loop of `ParseObj`: in declaration order, reject the first
field of unsupported declared type, skip nil fields, and route set fields to
the primary-key accumulator (when the `pk` tag is nonempty) or to the column
list. -/
def collectFields : List Field → Except String (List PkField × List KeyValue)
  | [] => .ok ([], [])
  | f :: rest =>
    if isValidPointerType f.ftype then
      match f.value with
      | none => collectFields rest
      | some v =>
        match collectFields rest with
        | .error e => .error e
        | .ok (pks, cols) =>
          if f.pkTag = "" then
            .ok (pks, ⟨f.jsonTag, v⟩ :: cols)
          else
            .ok (⟨f.jsonTag, f.pkTag, v⟩ :: pks, cols)
    else
      .error (invalidFieldTypeMsg f)

/-- Go's `<` on strings: byte-wise lexicographic comparison.  Byte-wise order
on UTF-8 encodings coincides with codepoint-wise order, so it is computed here
character by character. -/
def charListLt : List Char → List Char → Bool
  | [], [] => false
  | [], _ :: _ => true
  | _ :: _, [] => false
  | a :: as, b :: bs =>
    if a.toNat < b.toNat then true
    else if b.toNat < a.toNat then false
    else charListLt as bs

/-- Go string comparison `a < b` on the character sequences. -/
def goStrLt (a b : String) : Bool := charListLt a.data b.data

/-- Insert a primary-key field into a run already sorted by `pk` tag: it
passes the entries whose tag is strictly smaller and stops in front of the
first one that is not, which keeps declaration order among equal tags exactly
as Go's stable insertion pass does. -/
def insertPk (p : PkField) : List PkField → List PkField
  | [] => [p]
  | q :: rest => if goStrLt q.pkTag p.pkTag then q :: insertPk p rest else p :: q :: rest

/-- The `sort.Slice(pkFields, less)` call of `ParseObj` with
`less i j := pkTag i < pkTag j`, as insertion sort (see file header). -/
def sortPkFields : List PkField → List PkField
  | [] => []
  | p :: rest => insertPk p (sortPkFields rest)

/-- Drop the sorting tag when emitting a primary-key pair. -/
def PkField.toKV (p : PkField) : KeyValue := ⟨p.jsonTag, p.value⟩

/-- The body of `ParseObj` on a non-nil pointer to struct: collect, sort the
primary keys by `pk` tag, and emit both lists. -/
def parseObj (r : List Field) : Except String (List KeyValue × List KeyValue) :=
  match collectFields r with
  | .error e => .error e
  | .ok (pks, cols) => .ok ((sortPkFields pks).map PkField.toKV, cols)

/-- The possible shapes of the `any` argument handed to `ParseObj` /
`ParseResult`, as far as the reflection dispatch distinguishes them.
Strings carry what Go's `%T` (and for `ptrNonStruct` also `Type.Name()`)
would print. -/
inductive GoArg where
  | structPtr (fields : List Field)
  | nilStructPtr (typeStr : String)
  | nonPtrArg (typeStr : String)
  | ptrNonStruct (typeStr elemName : String)
deriving DecidableEq

/-- The argument dispatch of `ParseObj`: a non-pointer is rejected first;
dereferencing a typed nil pointer yields an invalid reflect value, whose kind
is not `Struct`, so it falls into the same branch as a pointer to a
non-struct. -/
def parseObjTop : GoArg → Except String (List KeyValue × List KeyValue)
  | .nonPtrArg _ => .error "obj must be a pointer"
  | .nilStructPtr _ => .error "obj must be a struct or pointer to struct"
  | .ptrNonStruct _ _ => .error "obj must be a struct or pointer to struct"
  | .structPtr fields => parseObj fields

/-- The tag-stripping step of `ParseResult`'s field map: keep everything
before the first comma (`strings.Index` + slice; `','` is ASCII, so the byte
search of the source coincides with this character search). -/
def stripTag (tag : String) : String :=
  String.mk (tag.data.takeWhile (fun c => c != ','))

/-- The `fieldMap` of `ParseResult` as a lookup from column name to field
index: fields with an empty `json` tag are invisible; the tag is stripped at
the first comma; a later field overwrites an earlier one with the same
stripped tag (Go map insertion order). -/
def fieldMapLookup : List Field → String → Option Nat
  | [], _ => none
  | f :: rest, key =>
    match fieldMapLookup rest key with
    | some j => some (j + 1)
    | none =>
      if f.jsonTag = "" then none
      else if stripTag f.jsonTag = key then some 0
      else none

/-- Whether `assignToPointerField` accepts a runtime value for a declared
field type. -/
def typeAccepts : FieldType → Value → Bool
  | .ptrStr, .str _ => true
  | .ptrInt64, .int _ => true
  | .ptrBytes, .bytes _ => true
  | _, _ => false

/-- The expected-kind string used by the `typeMismatchError` closure. -/
def expectedName : FieldType → String
  | .ptrStr => "string"
  | .ptrInt64 => "int64"
  | .ptrBytes => "[]byte"
  | t => t.typeName

/-- The message of the `typeMismatchError` closure of `ParseResult`:
`fmt.Errorf("expected %v, but got %T", fieldType, value)`. -/
def typeMismatchMsg (expected : String) (v : Value) : String :=
  "expected " ++ expected ++ ", but got " ++ goTypeName v

/-- The `assignToPointerField` closure of `ParseResult`: type-checked
assignment of a runtime value into a pointer field, returning the updated
field.  The error branches mirror the source: a non-pointer field, a
supported elem kind with a mismatched value, a slice of non-bytes, and any
other elem kind. -/
def assignToPointerField (f : Field) (v : Value) : Except String Field :=
  match f.ftype with
  | .ptrStr =>
    match v with
    | .str s => .ok { f with value := some (.str s) }
    | _ => .error (typeMismatchMsg "string" v)
  | .ptrInt64 =>
    match v with
    | .int n => .ok { f with value := some (.int n) }
    | _ => .error (typeMismatchMsg "int64" v)
  | .ptrBytes =>
    match v with
    | .bytes b => .ok { f with value := some (.bytes b) }
    | _ => .error (typeMismatchMsg "[]byte" v)
  | .ptrSliceOther _ e => .error ("unsupported slice element type: " ++ e)
  | .ptrOther _ k => .error ("unsupported field type: " ++ k)
  | .nonPtr _ k => .error ("field is not a pointer, got " ++ k)

/-- One pass of `ParseResult` over a pair list (`pks` or `cols`): pairs whose
name misses the field map are skipped; the first failing assignment stops the
pass, wrapped as `label "name": err`, and the record keeps the mutations made
so far (Go mutates through the pointer in place). -/
def processKVs (label : String) (lookup : String → Option Nat) :
    List KeyValue → List Field → List Field × Option String
  | [], fields => (fields, none)
  | kv :: rest, fields =>
    match lookup kv.key with
    | none => processKVs label lookup rest fields
    | some i =>
      match fields.get? i with
      | none => processKVs label lookup rest fields
      | some f =>
        match assignToPointerField f kv.value with
        | .error e => (fields, some (label ++ " \"" ++ kv.key ++ "\": " ++ e))
        | .ok f2 => processKVs label lookup rest (fields.set i f2)

/-- The body of `ParseResult` on a non-nil pointer to struct: build the field
map once, process the primary-key pairs, then the column pairs, stopping at
the first error.  The returned list is the record's final field state (the
source mutates the caller's struct in place, also on the error path).  The
field map only reads `json` tags, which assignments never change, so building
it once up front is equivalent to the source's captured `reflect.Value`
handles. -/
def parseResult (fields : List Field) (pks cols : List KeyValue) :
    List Field × Option String :=
  match processKVs "primary key" (fieldMapLookup fields) pks fields with
  | (fs, some e) => (fs, some e)
  | (fs, none) => processKVs "column" (fieldMapLookup fields) cols fs

/-- The argument dispatch of `ParseResult`: non-pointers and nil pointers are
rejected by the same check, pointers to non-structs by the next one; in every
error case the record is untouched. -/
def parseResultTop : GoArg → List KeyValue → List KeyValue → GoArg × Option String
  | .nonPtrArg t, _, _ =>
    (.nonPtrArg t, some ("parseResult: obj must be a non-nil pointer to struct, got " ++ t))
  | .nilStructPtr t, _, _ =>
    (.nilStructPtr t, some ("parseResult: obj must be a non-nil pointer to struct, got " ++ t))
  | .ptrNonStruct t n, _, _ =>
    (.ptrNonStruct t n, some ("parseResult: obj must be a pointer to struct, got " ++ n))
  | .structPtr fs, pks, cols =>
    match parseResult fs pks cols with
    | (fs2, e) => (.structPtr fs2, e)

/-- A zero value of the same record type: every field a nil pointer. -/
def zeroRecord (r : List Field) : List Field :=
  r.map (fun f => { f with value := none })

/-- A string without a comma, which `ParseResult`'s tag stripping leaves
intact. -/
def commaFree (s : String) : Prop := ∀ c ∈ s.data, c ≠ ','

instance (s : String) : Decidable (commaFree s) :=
  inferInstanceAs (Decidable (∀ c ∈ s.data, c ≠ ','))

/-- The primary-key entry a single field contributes when set. -/
def toPkF (f : Field) : Option PkField :=
  f.value.bind (fun v => if f.pkTag = "" then none else some ⟨f.jsonTag, f.pkTag, v⟩)

/-- The column entry a single field contributes when set. -/
def toColF (f : Field) : Option KeyValue :=
  f.value.bind (fun v => if f.pkTag = "" then some ⟨f.jsonTag, v⟩ else none)

/-- A field after the pairs whose names are in `S` have been written back:
already restored when its tag is in `S`, still zero otherwise. -/
def maskField (S : List String) (f : Field) : Field :=
  if f.jsonTag ∈ S then f else { f with value := none }

/-- The record after the pairs named in `S` have been written back. -/
def mask (S : List String) (r : List Field) : List Field := r.map (maskField S)

/-- A field that is set with a value matching its declared kind (automatic in
Go, where the value lives inside the typed pointer; stated here because the
embedding carries values separately). -/
def fieldSetOk (f : Field) : Bool :=
  match f.value with
  | none => false
  | some v => typeAccepts f.ftype v

/-! ### Concrete records used to exercise the engine -/

/-- A record with three primary keys whose ordinals are "2", "10", "1". -/
def ordRec : List Field :=
  [⟨"A", "a", "2", .ptrStr, some (.str "va")⟩,
   ⟨"B", "b", "10", .ptrStr, some (.str "vb")⟩,
   ⟨"C", "c", "1", .ptrStr, some (.str "vc")⟩]

/-- A record whose single field has the json tag `n,omitempty`, set. -/
def commaRec : List Field := [⟨"N", "n,omitempty", "", .ptrStr, some (.str "x")⟩]

/-- A record of all three supported kinds, two of them primary keys. -/
def rtRec : List Field :=
  [⟨"Pk1", "pk1", "1", .ptrStr, some (.str "k")⟩,
   ⟨"Pk2", "pk2", "2", .ptrInt64, some (.int 7)⟩,
   ⟨"Col1", "col1", "", .ptrBytes, some (.bytes [1, 2, 3])⟩]

/-- An unset record with an int64 column and two string columns. -/
def mismatchRec : List Field :=
  [⟨"FA", "a", "", .ptrInt64, none⟩,
   ⟨"FB", "b", "", .ptrStr, none⟩,
   ⟨"FC", "c", "", .ptrStr, none⟩]

/-- A record whose only field is declared `bool`. -/
def boolRec : List Field := [⟨"Flag", "flag", "", .nonPtr "bool" "bool", none⟩]

/-- A record with both primary keys set (ordinals "1" and "2") and its only
column unset. -/
def pkOnlyRec : List Field :=
  [⟨"Pk1", "pk1", "1", .ptrStr, some (.str "k")⟩,
   ⟨"Pk2", "pk2", "2", .ptrInt64, some (.int 7)⟩,
   ⟨"Col1", "col1", "", .ptrStr, none⟩]

/-- A record with every field unset. -/
def unsetRec : List Field :=
  [⟨"Pk1", "pk1", "1", .ptrStr, none⟩, ⟨"Col1", "col1", "", .ptrStr, none⟩]

/-- A record with a single string column named "a". -/
def oneColRec : List Field := [⟨"FA", "a", "", .ptrStr, none⟩]

/-- A record with two primary-key fields carrying the same ordinal "1". -/
def eqOrdRec : List Field :=
  [⟨"A", "a", "1", .ptrStr, some (.str "va")⟩,
   ⟨"B", "b", "1", .ptrStr, some (.str "vb")⟩]

/-- Two set string columns sharing the column name "a". -/
def dupRec : List Field :=
  [⟨"F1", "a", "", .ptrStr, some (.str "v1")⟩,
   ⟨"F2", "a", "", .ptrStr, some (.str "v2")⟩]

/-- A set string field with an empty json tag. -/
def emptyTagRec : List Field := [⟨"E", "", "", .ptrStr, some (.str "x")⟩]

/-! ### Order facts about Go string comparison -/

theorem charListLt_asymm : ∀ a b : List Char,
    charListLt a b = true → charListLt b a = false := by
  intro a
  induction a with
  | nil => intro b _; cases b <;> rfl
  | cons x xs ih =>
    intro b hab
    cases b with
    | nil => simp [charListLt] at hab
    | cons y ys =>
      simp only [charListLt] at hab ⊢
      split_ifs at hab ⊢ <;> first | rfl | omega | exact ih ys hab

theorem charListLt_le_trans : ∀ a b c : List Char,
    charListLt b a = false → charListLt c b = false → charListLt c a = false := by
  intro a
  induction a with
  | nil =>
    intro b c _ _
    cases c with
    | nil => rfl
    | cons z zs => rfl
  | cons x xs ih =>
    intro b c h1 h2
    cases b with
    | nil => simp [charListLt] at h1
    | cons y ys =>
      cases c with
      | nil => simp [charListLt] at h2
      | cons z zs =>
        simp only [charListLt] at h1 h2 ⊢
        split_ifs at h1 h2 ⊢ <;> first | rfl | omega | exact ih ys zs h1 h2

theorem goStrLt_asymm {a b : String} (h : goStrLt a b = true) : goStrLt b a = false :=
  charListLt_asymm a.data b.data h

theorem goStrLt_le_trans {a b c : String} (h1 : goStrLt b a = false)
    (h2 : goStrLt c b = false) : goStrLt c a = false :=
  charListLt_le_trans a.data b.data c.data h1 h2

/-- Ascending order by `pk` tag, as observable after the sort: no later entry
has a strictly smaller tag. -/
def pkLe (p q : PkField) : Prop := goStrLt q.pkTag p.pkTag = false

theorem mem_insertPk {x p : PkField} : ∀ {l : List PkField},
    x ∈ insertPk p l → x = p ∨ x ∈ l := by
  intro l
  induction l with
  | nil => intro h; simp [insertPk] at h; exact Or.inl h
  | cons q rest ih =>
    intro h
    simp only [insertPk] at h
    split_ifs at h with hq
    · rcases List.mem_cons.mp h with h | h
      · exact Or.inr (List.mem_cons.mpr (Or.inl h))
      · rcases ih h with h | h
        · exact Or.inl h
        · exact Or.inr (List.mem_cons.mpr (Or.inr h))
    · rcases List.mem_cons.mp h with h | h
      · exact Or.inl h
      · exact Or.inr h

theorem perm_insertPk (p : PkField) : ∀ l : List PkField, List.Perm (insertPk p l) (p :: l) := by
  intro l
  induction l with
  | nil => exact List.Perm.refl _
  | cons q rest ih =>
    simp only [insertPk]
    split_ifs with hq
    · exact ((ih.cons q).trans (List.Perm.swap p q rest))
    · exact List.Perm.refl _

theorem perm_sortPkFields : ∀ l : List PkField, List.Perm (sortPkFields l) l := by
  intro l
  induction l with
  | nil => exact List.Perm.refl _
  | cons p rest ih =>
    exact (perm_insertPk p (sortPkFields rest)).trans (ih.cons p)

theorem pairwise_insertPk {p : PkField} : ∀ {l : List PkField},
    l.Pairwise pkLe → (insertPk p l).Pairwise pkLe := by
  intro l
  induction l with
  | nil => intro _; simp [insertPk, pkLe]
  | cons q rest ih =>
    intro h
    rcases List.pairwise_cons.mp h with ⟨hq, hrest⟩
    simp only [insertPk]
    split_ifs with hlt
    · refine List.pairwise_cons.mpr ⟨?_, ih hrest⟩
      intro x hx
      rcases mem_insertPk hx with rfl | hx
      · exact goStrLt_asymm hlt
      · exact hq x hx
    · refine List.pairwise_cons.mpr ⟨?_, h⟩
      intro x hx
      rcases List.mem_cons.mp hx with rfl | hx
      · simpa [pkLe] using hlt
      · exact goStrLt_le_trans (by simpa using hlt) (hq x hx)

theorem pairwise_sortPkFields : ∀ l : List PkField, (sortPkFields l).Pairwise pkLe := by
  intro l
  induction l with
  | nil => simp [sortPkFields]
  | cons p rest ih => exact pairwise_insertPk ih

/-! ### Characterisation of the collection pass -/

theorem collectFields_ok : ∀ r : List Field,
    (∀ f ∈ r, isValidPointerType f.ftype = true) →
    collectFields r = .ok (r.filterMap toPkF, r.filterMap toColF) := by
  intro r
  induction r with
  | nil => intro _; rfl
  | cons f rest ih =>
    intro h
    have hf : isValidPointerType f.ftype = true := h f (List.mem_cons_self f rest)
    have hrest := ih (fun g hg => h g (List.mem_cons_of_mem f hg))
    simp only [collectFields, hf, if_true]
    cases hv : f.value with
    | none =>
      simp [List.filterMap_cons, toPkF, toColF, hv, hrest]
    | some v =>
      rw [hrest]
      by_cases hpk : f.pkTag = ""
      · simp [List.filterMap_cons, toPkF, toColF, hv, hpk]
      · simp [List.filterMap_cons, toPkF, toColF, hv, hpk]

theorem parseObj_ok (r : List Field)
    (h : ∀ f ∈ r, isValidPointerType f.ftype = true) :
    parseObj r =
      .ok ((sortPkFields (r.filterMap toPkF)).map PkField.toKV, r.filterMap toColF) := by
  simp [parseObj, collectFields_ok r h]

theorem collectFields_err : ∀ r : List Field,
    (∃ f ∈ r, isValidPointerType f.ftype = false) →
    ∃ f ∈ r, isValidPointerType f.ftype = false ∧
      collectFields r = .error (invalidFieldTypeMsg f) := by
  intro r
  induction r with
  | nil => rintro ⟨f, hf, _⟩; cases hf
  | cons g rest ih =>
    intro h
    by_cases hg : isValidPointerType g.ftype = true
    · have hrest : ∃ f ∈ rest, isValidPointerType f.ftype = false := by
        rcases h with ⟨f, hf, hinv⟩
        rcases List.mem_cons.mp hf with rfl | hf
        · rw [hg] at hinv; cases hinv
        · exact ⟨f, hf, hinv⟩
      rcases ih hrest with ⟨f, hf, hinv, herr⟩
      refine ⟨f, List.mem_cons_of_mem g hf, hinv, ?_⟩
      simp only [collectFields, hg, if_true]
      cases hv : g.value with
      | none => exact herr
      | some v => rw [herr]
    · have hg2 : isValidPointerType g.ftype = false := by
        cases hb : isValidPointerType g.ftype
        · rfl
        · exact absurd hb hg
      refine ⟨g, List.mem_cons_self g rest, hg2, ?_⟩
      simp only [collectFields, hg2]
      rfl

/-! ### The field map of `ParseResult` -/

theorem takeWhile_ne_comma : ∀ l : List Char, (∀ c ∈ l, c ≠ ',') →
    l.takeWhile (fun c => c != ',') = l := by
  intro l
  induction l with
  | nil => intro _; rfl
  | cons c cs ih =>
    intro h
    have hc : (c != ',') = true := by
      have := h c (List.mem_cons_self c cs)
      simp [bne_iff_ne, this]
    simp only [List.takeWhile_cons, hc, if_true]
    rw [ih (fun d hd => h d (List.mem_cons_of_mem c hd))]

theorem stripTag_eq_self {s : String} (h : commaFree s) : stripTag s = s := by
  obtain ⟨l⟩ := s
  show String.mk (l.takeWhile (fun c => c != ',')) = String.mk l
  rw [takeWhile_ne_comma l h]

theorem fieldMapLookup_congr : ∀ (l1 l2 : List Field),
    l1.map Field.jsonTag = l2.map Field.jsonTag →
    ∀ k, fieldMapLookup l1 k = fieldMapLookup l2 k := by
  intro l1
  induction l1 with
  | nil =>
    intro l2 h k
    cases l2 with
    | nil => rfl
    | cons g t => simp at h
  | cons f t1 ih =>
    intro l2 h k
    cases l2 with
    | nil => simp at h
    | cons g t2 =>
      simp only [List.map_cons, List.cons.injEq] at h
      obtain ⟨hhead, htail⟩ := h
      simp only [fieldMapLookup, ih t2 htail k, hhead]

theorem fieldMapLookup_none : ∀ (l : List Field) (k : String),
    (∀ f ∈ l, f.jsonTag = "" ∨ stripTag f.jsonTag ≠ k) →
    fieldMapLookup l k = none := by
  intro l
  induction l with
  | nil => intro k _; rfl
  | cons f t ih =>
    intro k h
    have ht := ih k (fun g hg => h g (List.mem_cons_of_mem f hg))
    simp only [fieldMapLookup, ht]
    rcases h f (List.mem_cons_self f t) with hf | hf
    · simp [hf]
    · by_cases he : f.jsonTag = ""
      · simp [he]
      · simp [he, hf]

theorem fieldMapLookup_get : ∀ (r : List Field),
    (r.map Field.jsonTag).Nodup →
    (∀ f ∈ r, f.jsonTag ≠ "") →
    (∀ f ∈ r, commaFree f.jsonTag) →
    ∀ (j : Nat) (f : Field), r.get? j = some f →
    fieldMapLookup r f.jsonTag = some j := by
  intro r
  induction r with
  | nil => intro _ _ _ j f hj; cases hj
  | cons g rest ih =>
    intro hnd hne hcf j f hj
    have hnd2 : (rest.map Field.jsonTag).Nodup :=
      (List.nodup_cons.mp hnd).2
    have hgn : g.jsonTag ∉ rest.map Field.jsonTag :=
      (List.nodup_cons.mp hnd).1
    cases j with
    | zero =>
      have hf : g = f := by simpa [List.get?] using hj
      subst hf
      have hrest : fieldMapLookup rest g.jsonTag = none := by
        apply fieldMapLookup_none
        intro h hh
        right
        rw [stripTag_eq_self (hcf h (List.mem_cons_of_mem g hh))]
        intro hc
        exact hgn (hc ▸ List.mem_map_of_mem Field.jsonTag hh)
      simp only [fieldMapLookup, hrest]
      have h1 : ¬ g.jsonTag = "" := hne g (List.mem_cons_self g rest)
      have h2 : stripTag g.jsonTag = g.jsonTag :=
        stripTag_eq_self (hcf g (List.mem_cons_self g rest))
      simp [h1, h2]
    | succ j =>
      have hj2 : rest.get? j = some f := hj
      have := ih hnd2 (fun h hh => hne h (List.mem_cons_of_mem g hh))
        (fun h hh => hcf h (List.mem_cons_of_mem g hh)) j f hj2
      simp only [fieldMapLookup, this]

/-! ### Type-checked assignment -/

theorem typeAccepts_valid {t : FieldType} {v : Value} (h : typeAccepts t v = true) :
    isValidPointerType t = true := by
  cases t <;> cases v <;> simp_all [typeAccepts, isValidPointerType]

theorem assign_ok {f : Field} {v : Value} (h : typeAccepts f.ftype v = true) :
    assignToPointerField f v = .ok { f with value := some v } := by
  obtain ⟨n, jt, pt, ft, val⟩ := f
  cases ft <;> cases v <;> simp_all [typeAccepts, assignToPointerField]

theorem assign_mismatch {f : Field} {v : Value}
    (hvalid : isValidPointerType f.ftype = true) (h : typeAccepts f.ftype v = false) :
    assignToPointerField f v = .error (typeMismatchMsg (expectedName f.ftype) v) := by
  obtain ⟨n, jt, pt, ft, val⟩ := f
  cases ft <;> cases v <;>
    simp_all [typeAccepts, assignToPointerField, isValidPointerType, expectedName]

/-! ### Masked records: the state space of a materialisation in progress -/

theorem maskField_jsonTag (S : List String) (f : Field) :
    (maskField S f).jsonTag = f.jsonTag := by
  unfold maskField; split <;> rfl

theorem maskField_ftype (S : List String) (f : Field) :
    (maskField S f).ftype = f.ftype := by
  unfold maskField; split <;> rfl

theorem mask_map_tags (S : List String) (r : List Field) :
    (mask S r).map Field.jsonTag = r.map Field.jsonTag := by
  unfold mask
  rw [List.map_map]
  exact List.map_congr_left (fun f _ => maskField_jsonTag S f)

theorem zeroRecord_eq_mask_nil (r : List Field) : zeroRecord r = mask [] r := by
  unfold zeroRecord mask
  exact List.map_congr_left (fun f _ => by simp [maskField])

theorem mask_congr {S1 S2 : List String} (h : ∀ t, t ∈ S1 ↔ t ∈ S2) (r : List Field) :
    mask S1 r = mask S2 r := by
  unfold mask
  refine List.map_congr_left (fun f _ => ?_)
  unfold maskField
  by_cases hm : f.jsonTag ∈ S1
  · rw [if_pos hm, if_pos ((h _).mp hm)]
  · rw [if_neg hm, if_neg (fun hc => hm ((h _).mpr hc))]

theorem mask_full {S : List String} {r : List Field} (h : ∀ f ∈ r, f.jsonTag ∈ S) :
    mask S r = r := by
  unfold mask
  have : ∀ f ∈ r, maskField S f = id f := by
    intro f hf
    unfold maskField
    rw [if_pos (h f hf)]
    rfl
  rw [List.map_congr_left this, List.map_id]

theorem nodup_map_get?_ne {r : List Field} (hnd : (r.map Field.jsonTag).Nodup)
    {i j : Nat} {g f : Field} (hi : r.get? i = some g) (hj : r.get? j = some f)
    (hij : i ≠ j) : g.jsonTag ≠ f.jsonTag := by
  intro hc
  have hi2 : (r.map Field.jsonTag).get? i = some g.jsonTag := by
    rw [List.get?_map, hi]; rfl
  have hj2 : (r.map Field.jsonTag).get? j = some f.jsonTag := by
    rw [List.get?_map, hj]; rfl
  obtain ⟨hli, hgi⟩ := List.get?_eq_some.mp hi2
  obtain ⟨hlj, hgj⟩ := List.get?_eq_some.mp hj2
  apply hij
  have heq : (r.map Field.jsonTag).get ⟨i, hli⟩ = (r.map Field.jsonTag).get ⟨j, hlj⟩ := by
    rw [hgi, hgj, hc]
  exact Fin.mk_eq_mk.mp (hnd.get_inj_iff.mp heq)

/-! ### The materialisation passes -/

theorem processKVs_filter (label : String) (lookup : String → Option Nat) :
    ∀ (P : List KeyValue) (fs : List Field),
    processKVs label lookup P fs =
      processKVs label lookup (P.filter fun kv => (lookup kv.key).isSome) fs := by
  intro P
  induction P with
  | nil => intro fs; rfl
  | cons kv rest ih =>
    intro fs
    cases hk : lookup kv.key with
    | none =>
      have hdrop : (List.filter (fun kv => (lookup kv.key).isSome) (kv :: rest)) =
          List.filter (fun kv => (lookup kv.key).isSome) rest := by
        rw [List.filter_cons, hk]
        simp [Option.isSome]
      rw [hdrop]
      simp only [processKVs, hk]
      exact ih fs
    | some i =>
      have hkeep : (List.filter (fun kv => (lookup kv.key).isSome) (kv :: rest)) =
          kv :: List.filter (fun kv => (lookup kv.key).isSome) rest := by
        rw [List.filter_cons, hk]
        simp [Option.isSome]
      rw [hkeep]
      cases hg : fs.get? i with
      | none =>
        simp only [processKVs, hk, hg]
        exact ih fs
      | some f =>
        cases ha : assignToPointerField f kv.value with
        | error e => simp only [processKVs, hk, hg, ha]
        | ok f2 =>
          simp only [processKVs, hk, hg, ha]
          exact ih (fs.set i f2)

theorem processKVs_mask (r : List Field)
    (hnd : (r.map Field.jsonTag).Nodup)
    (hne : ∀ f ∈ r, f.jsonTag ≠ "")
    (hcf : ∀ f ∈ r, commaFree f.jsonTag)
    (label : String) :
    ∀ (P : List KeyValue) (S : List String),
    (∀ kv ∈ P, ∃ j f, r.get? j = some f ∧ kv.key = f.jsonTag ∧
      f.value = some kv.value ∧ typeAccepts f.ftype kv.value = true) →
    processKVs label (fieldMapLookup r) P (mask S r) =
      (mask (P.map KeyValue.key ++ S) r, none) := by
  intro P
  induction P with
  | nil => intro S _; simp [processKVs]
  | cons kv rest ih =>
    intro S hP
    obtain ⟨j, f, hj, hkey, hval, hacc⟩ := hP kv (List.mem_cons_self kv rest)
    have hlook : fieldMapLookup r kv.key = some j := by
      rw [hkey]; exact fieldMapLookup_get r hnd hne hcf j f hj
    have hget : (mask S r).get? j = some (maskField S f) := by
      unfold mask; rw [List.get?_map, hj]; rfl
    have haccm : typeAccepts (maskField S f).ftype kv.value = true := by
      rw [maskField_ftype]; exact hacc
    have hassign : assignToPointerField (maskField S f) kv.value =
        .ok { maskField S f with value := some kv.value } := assign_ok haccm
    have hf2 : ({ maskField S f with value := some kv.value } : Field) = f := by
      obtain ⟨n, jt, pt, ft, val⟩ := f
      simp only [maskField]
      split <;> simp_all
    have hjlen : j < (mask S r).length := (List.get?_eq_some.mp hget).1
    have hset : (mask S r).set j f = mask (kv.key :: S) r := by
      apply List.ext_get?_iff.mpr
      intro i
      by_cases hij : i = j
      · subst hij
        rw [List.get?_set_eq_of_lt _ hjlen]
        unfold mask
        rw [List.get?_map, hj]
        have hmf : maskField (kv.key :: S) f = f := by
          unfold maskField
          rw [if_pos (hkey ▸ List.mem_cons_self kv.key S)]
        simp only [Option.map_some', hmf]
      · rw [List.get?_set_ne _ _ (fun hc => hij hc.symm)]
        unfold mask
        rw [List.get?_map, List.get?_map]
        cases hgi : r.get? i with
        | none => rfl
        | some g =>
          have hgt : g.jsonTag ≠ f.jsonTag := nodup_map_get?_ne hnd hgi hj hij
          have hmg : maskField S g = maskField (kv.key :: S) g := by
            unfold maskField
            by_cases hm : g.jsonTag ∈ S
            · rw [if_pos hm, if_pos (List.mem_cons_of_mem _ hm)]
            · rw [if_neg hm, if_neg ?_]
              intro hc
              rcases List.mem_cons.mp hc with hc | hc
              · exact hgt (hkey ▸ hc)
              · exact hm hc
          simp only [Option.map_some', hmg]
    have hrest := ih (kv.key :: S) (fun kv2 h2 => hP kv2 (List.mem_cons_of_mem kv h2))
    have hstep : processKVs label (fieldMapLookup r) (kv :: rest) (mask S r) =
        processKVs label (fieldMapLookup r) rest (mask (kv.key :: S) r) := by
      simp only [processKVs, hlook, hget, hassign, hf2, hset]
    rw [hstep, hrest]
    have hmem : ∀ t, t ∈ rest.map KeyValue.key ++ kv.key :: S ↔
        t ∈ (kv :: rest).map KeyValue.key ++ S := by
      intro t
      constructor
      · intro h
        rcases List.mem_append.mp h with h | h
        · rcases List.mem_map.mp h with ⟨a, ha, rfl⟩
          exact List.mem_append.mpr
            (Or.inl (List.mem_map.mpr ⟨a, List.mem_cons_of_mem kv ha, rfl⟩))
        · rcases List.mem_cons.mp h with rfl | h
          · exact List.mem_append.mpr
              (Or.inl (List.mem_map.mpr ⟨kv, List.mem_cons_self kv rest, rfl⟩))
          · exact List.mem_append.mpr (Or.inr h)
      · intro h
        rcases List.mem_append.mp h with h | h
        · rcases List.mem_map.mp h with ⟨a, ha, rfl⟩
          rcases List.mem_cons.mp ha with rfl | ha
          · exact List.mem_append.mpr (Or.inr (List.mem_cons_self _ _))
          · exact List.mem_append.mpr (Or.inl (List.mem_map.mpr ⟨a, ha, rfl⟩))
        · exact List.mem_append.mpr (Or.inr (List.mem_cons_of_mem _ h))
    rw [mask_congr hmem]

/-! ### The round-trip law -/

theorem toPkF_eq_some {f : Field} {p : PkField} (h : toPkF f = some p) :
    f.value = some p.value ∧ p.jsonTag = f.jsonTag ∧ f.pkTag ≠ "" := by
  unfold toPkF at h
  rcases Option.bind_eq_some.mp h with ⟨v, hv, hif⟩
  by_cases hpk : f.pkTag = ""
  · rw [if_pos hpk] at hif; cases hif
  · rw [if_neg hpk] at hif
    injection hif with hif
    subst hif
    exact ⟨hv, rfl, hpk⟩

theorem toColF_eq_some {f : Field} {kv : KeyValue} (h : toColF f = some kv) :
    f.value = some kv.value ∧ kv.key = f.jsonTag ∧ f.pkTag = "" := by
  unfold toColF at h
  rcases Option.bind_eq_some.mp h with ⟨v, hv, hif⟩
  by_cases hpk : f.pkTag = ""
  · rw [if_pos hpk] at hif
    injection hif with hif
    subst hif
    exact ⟨hv, rfl, hpk⟩
  · rw [if_neg hpk] at hif; cases hif

/-- C1, amended: for every record of a valid schema whose fields are all set
with values of their declared kinds and whose column names are distinct,
non-empty and comma-free, extracting with `ParseObj` and materialising the
resulting primary-key and attribute pairs into a zero record of the same type
restores the record exactly, with no error. -/
theorem parseObj_parseResult_roundtrip (r : List Field)
    (hset : ∀ f ∈ r, fieldSetOk f = true)
    (hnd : (r.map Field.jsonTag).Nodup)
    (hne : ∀ f ∈ r, f.jsonTag ≠ "")
    (hcf : ∀ f ∈ r, commaFree f.jsonTag) :
    ∃ pks cols, parseObj r = .ok (pks, cols) ∧
      parseResult (zeroRecord r) pks cols = (r, none) := by
  have hset2 : ∀ f ∈ r, ∃ v, f.value = some v ∧ typeAccepts f.ftype v = true := by
    intro f hf
    have h := hset f hf
    unfold fieldSetOk at h
    cases hv : f.value with
    | none => rw [hv] at h; cases h
    | some v => rw [hv] at h; exact ⟨v, rfl, h⟩
  have hvalid : ∀ f ∈ r, isValidPointerType f.ftype = true := by
    intro f hf
    obtain ⟨v, _, ha⟩ := hset2 f hf
    exact typeAccepts_valid ha
  refine ⟨(sortPkFields (r.filterMap toPkF)).map PkField.toKV, r.filterMap toColF,
    parseObj_ok r hvalid, ?_⟩
  have hlz : fieldMapLookup (zeroRecord r) = fieldMapLookup r := by
    funext k
    exact fieldMapLookup_congr (zeroRecord r) r
      (by rw [zeroRecord_eq_mask_nil, mask_map_tags]) k
  have hPpk : ∀ kv ∈ (sortPkFields (r.filterMap toPkF)).map PkField.toKV,
      ∃ j f, r.get? j = some f ∧ kv.key = f.jsonTag ∧
        f.value = some kv.value ∧ typeAccepts f.ftype kv.value = true := by
    intro kv hkv
    rcases List.mem_map.mp hkv with ⟨p, hp, rfl⟩
    have hp2 : p ∈ r.filterMap toPkF :=
      (perm_sortPkFields (r.filterMap toPkF)).mem_iff.mp hp
    rcases List.mem_filterMap.mp hp2 with ⟨f, hf, htp⟩
    obtain ⟨hv, hjt, _⟩ := toPkF_eq_some htp
    obtain ⟨j, hj⟩ := List.get?_of_mem hf
    obtain ⟨v2, hv2, ha2⟩ := hset2 f hf
    have hveq : v2 = p.value := by
      rw [hv] at hv2
      exact (Option.some.inj hv2).symm
    refine ⟨j, f, hj, hjt, hv, ?_⟩
    show typeAccepts f.ftype p.value = true
    rw [← hveq]
    exact ha2
  have hPcol : ∀ kv ∈ r.filterMap toColF,
      ∃ j f, r.get? j = some f ∧ kv.key = f.jsonTag ∧
        f.value = some kv.value ∧ typeAccepts f.ftype kv.value = true := by
    intro kv hkv
    rcases List.mem_filterMap.mp hkv with ⟨f, hf, htc⟩
    obtain ⟨hv, hjt, _⟩ := toColF_eq_some htc
    obtain ⟨j, hj⟩ := List.get?_of_mem hf
    obtain ⟨v2, hv2, ha2⟩ := hset2 f hf
    have hveq : v2 = kv.value := by
      rw [hv] at hv2
      exact (Option.some.inj hv2).symm
    refine ⟨j, f, hj, hjt, hv, ?_⟩
    rw [← hveq]
    exact ha2
  have h1 := processKVs_mask r hnd hne hcf "primary key"
    ((sortPkFields (r.filterMap toPkF)).map PkField.toKV) [] hPpk
  have h2 := processKVs_mask r hnd hne hcf "column"
    (r.filterMap toColF)
    (((sortPkFields (r.filterMap toPkF)).map PkField.toKV).map KeyValue.key ++ []) hPcol
  have hcov : ∀ f ∈ r, f.jsonTag ∈
      (r.filterMap toColF).map KeyValue.key ++
        (((sortPkFields (r.filterMap toPkF)).map PkField.toKV).map KeyValue.key ++ []) := by
    intro f hf
    obtain ⟨v, hv, _⟩ := hset2 f hf
    by_cases hpk : f.pkTag = ""
    · have hc : (⟨f.jsonTag, v⟩ : KeyValue) ∈ r.filterMap toColF := by
        refine List.mem_filterMap.mpr ⟨f, hf, ?_⟩
        simp [toColF, hv, hpk]
      exact List.mem_append.mpr (Or.inl (List.mem_map.mpr ⟨_, hc, rfl⟩))
    · have hpmem : (⟨f.jsonTag, f.pkTag, v⟩ : PkField) ∈ r.filterMap toPkF := by
        refine List.mem_filterMap.mpr ⟨f, hf, ?_⟩
        simp [toPkF, hv, hpk]
      have hsor : (⟨f.jsonTag, f.pkTag, v⟩ : PkField) ∈
          sortPkFields (r.filterMap toPkF) :=
        (perm_sortPkFields (r.filterMap toPkF)).mem_iff.mpr hpmem
      have hkv : (⟨f.jsonTag, v⟩ : KeyValue) ∈
          (sortPkFields (r.filterMap toPkF)).map PkField.toKV :=
        List.mem_map.mpr ⟨_, hsor, rfl⟩
      exact List.mem_append.mpr
        (Or.inr (List.mem_append.mpr (Or.inl (List.mem_map.mpr ⟨_, hkv, rfl⟩))))
  show parseResult (zeroRecord r) _ _ = (r, none)
  unfold parseResult
  rw [hlz, zeroRecord_eq_mask_nil, h1]
  show processKVs "column" (fieldMapLookup r) (r.filterMap toColF) _ = (r, none)
  rw [h2, mask_full hcov]

theorem filterMap_filter_value {β : Type} (g : Field → Option β)
    (hg : ∀ f, f.value = none → g f = none) :
    ∀ r : List Field, (r.filter fun f => f.value.isSome).filterMap g = r.filterMap g := by
  intro r
  induction r with
  | nil => rfl
  | cons f rest ih =>
    cases hv : f.value with
    | none =>
      have hs : f.value.isSome = false := by rw [hv]; rfl
      rw [List.filter_cons]
      simp only [hs, Bool.false_eq_true, if_false]
      rw [List.filterMap_cons, hg f hv]
      exact ih
    | some v =>
      have hs : f.value.isSome = true := by rw [hv]; rfl
      rw [List.filter_cons]
      simp only [hs, if_true]
      rw [List.filterMap_cons, List.filterMap_cons]
      cases g f with
      | none => exact ih
      | some b => rw [ih]

/-! ### Claim theorems -/

/-- C1, counterexample: a schema whose single field has the distinct,
non-empty column name `n,omitempty` (all fields set) extracts fine, but
materialising the extracted pairs into a zero record leaves it zero, so the
round-trip of the claim fails as stated. -/
theorem roundtrip_counterexample :
    parseObj commaRec = .ok ([], [⟨"n,omitempty", .str "x"⟩]) ∧
    parseResult (zeroRecord commaRec) [] [⟨"n,omitempty", .str "x"⟩] =
      (zeroRecord commaRec, none) ∧
    zeroRecord commaRec ≠ commaRec := by
  refine ⟨by decide, by decide, by decide⟩

/-- C1, witness: the round-trip theorem applied to a concrete record with all
three supported kinds and two primary keys. -/
theorem roundtrip_witness :
    ∃ pks cols, parseObj rtRec = .ok (pks, cols) ∧
      parseResult (zeroRecord rtRec) pks cols = (rtRec, none) :=
  parseObj_parseResult_roundtrip rtRec (by decide) (by decide) (by decide) (by decide)

/-- C2: for every record whose collection pass succeeds, `ParseObj` emits as
its primary-key tuple exactly the image of `sortPkFields` applied to the
record's collected primary-key accumulator — a permutation of those tagged
fields that is pairwise sorted ascending by the ordinal tag compared as a raw
Go string — and on ordinals "2", "10", "1" the emitted order is "1", "10",
"2" (lexicographic, not numeric). -/
theorem parseObj_pk_lexicographic :
    (∀ (r : List Field) (pkL : List PkField) (colL : List KeyValue),
      collectFields r = .ok (pkL, colL) →
      parseObj r = .ok ((sortPkFields pkL).map PkField.toKV, colL) ∧
      List.Perm (sortPkFields pkL) pkL ∧
      (sortPkFields pkL).Pairwise pkLe) ∧
    parseObj ordRec =
      .ok ([⟨"c", .str "vc"⟩, ⟨"b", .str "vb"⟩, ⟨"a", .str "va"⟩], []) := by
  constructor
  · intro r pkL colL h
    refine ⟨?_, perm_sortPkFields pkL, pairwise_sortPkFields pkL⟩
    unfold parseObj
    rw [h]
  · decide

/-- C2, witness: the sorting theorem applied to the "2", "10", "1" record,
whose collected primary-key accumulator holds the three tagged fields in
declaration order. -/
theorem pk_lexicographic_witness :
    parseObj ordRec =
      .ok ((sortPkFields [⟨"a", "2", .str "va"⟩, ⟨"b", "10", .str "vb"⟩,
        ⟨"c", "1", .str "vc"⟩]).map PkField.toKV, []) ∧
    List.Perm
      (sortPkFields [⟨"a", "2", .str "va"⟩, ⟨"b", "10", .str "vb"⟩,
        ⟨"c", "1", .str "vc"⟩])
      [⟨"a", "2", .str "va"⟩, ⟨"b", "10", .str "vb"⟩, ⟨"c", "1", .str "vc"⟩] ∧
    (sortPkFields [⟨"a", "2", .str "va"⟩, ⟨"b", "10", .str "vb"⟩,
      ⟨"c", "1", .str "vc"⟩]).Pairwise pkLe :=
  parseObj_pk_lexicographic.1 ordRec
    [⟨"a", "2", .str "va"⟩, ⟨"b", "10", .str "vb"⟩, ⟨"c", "1", .str "vc"⟩] []
    (by decide)

/-- C3: a value whose runtime kind differs from the declared kind of a
supported field fails with the `expected ..., but got ...` message; the wrapped
message distinguishes `primary key "name"` from `column "name"`; processing
stops at the first mismatch and earlier assignments are kept (no rollback). -/
theorem parseResult_type_mismatch :
    (∀ (f : Field) (v : Value), isValidPointerType f.ftype = true →
      typeAccepts f.ftype v = false →
      assignToPointerField f v = .error (typeMismatchMsg (expectedName f.ftype) v)) ∧
    parseResult mismatchRec [⟨"a", .str "bad"⟩] [] =
      (mismatchRec, some "primary key \"a\": expected int64, but got string") ∧
    parseResult mismatchRec []
        [⟨"b", .str "ok"⟩, ⟨"a", .str "bad"⟩, ⟨"c", .str "later"⟩] =
      ([⟨"FA", "a", "", .ptrInt64, none⟩,
        ⟨"FB", "b", "", .ptrStr, some (.str "ok")⟩,
        ⟨"FC", "c", "", .ptrStr, none⟩],
       some "column \"a\": expected int64, but got string") :=
  ⟨fun _ _ h1 h2 => assign_mismatch h1 h2, by decide, by decide⟩

/-- C3, witness: the mismatch message lemma applied to a string arriving in an
int64 field. -/
theorem type_mismatch_witness :
    assignToPointerField ⟨"FA", "a", "", .ptrInt64, none⟩ (Value.str "bad") =
      .error (typeMismatchMsg (expectedName FieldType.ptrInt64) (Value.str "bad")) :=
  parseResult_type_mismatch.1 ⟨"FA", "a", "", .ptrInt64, none⟩ (Value.str "bad")
    (by decide) (by decide)

/-- C4: a record declaring any field of an unsupported kind makes `ParseObj`
fail with the invalid-type error naming an offending field, and the error
return carries no partial lists, whatever the field values are. -/
theorem parseObj_invalid_field_type (r : List Field)
    (h : ∃ f ∈ r, isValidPointerType f.ftype = false) :
    ∃ f ∈ r, isValidPointerType f.ftype = false ∧
      parseObj r = .error (invalidFieldTypeMsg f) := by
  rcases collectFields_err r h with ⟨f, hf, hinv, herr⟩
  refine ⟨f, hf, hinv, ?_⟩
  unfold parseObj
  rw [herr]

/-- C4, witness: a record with a `bool` field is rejected with the
invalid-type error. -/
theorem invalid_field_type_witness :
    ∃ f ∈ boolRec, isValidPointerType f.ftype = false ∧
      parseObj boolRec = .error (invalidFieldTypeMsg f) :=
  parseObj_invalid_field_type boolRec (by decide)

/-- C5: unset fields are skipped entirely — extraction of a record equals
extraction of the record restricted to its set fields; a record whose set
fields are all primary keys yields an empty attribute list; a fully-unset
record yields two empty lists without error; and a set primary-key field
guarantees a non-empty primary-key tuple. -/
theorem parseObj_skips_unset (r : List Field)
    (hvalid : ∀ f ∈ r, isValidPointerType f.ftype = true) :
    parseObj r = parseObj (r.filter fun f => f.value.isSome) ∧
    ((∀ f ∈ r, f.value.isSome = true → f.pkTag ≠ "") →
      ∃ pks, parseObj r = .ok (pks, [])) ∧
    ((∀ f ∈ r, f.value = none) → parseObj r = .ok ([], [])) ∧
    ((∃ f ∈ r, f.value.isSome = true ∧ f.pkTag ≠ "") →
      ∃ pks cols, parseObj r = .ok (pks, cols) ∧ pks ≠ []) := by
  have hvf : ∀ f ∈ (r.filter fun f => f.value.isSome), isValidPointerType f.ftype = true :=
    fun f hf => hvalid f (List.mem_of_mem_filter hf)
  have hgP : ∀ f : Field, f.value = none → toPkF f = none := by
    intro f hv; unfold toPkF; rw [hv]; rfl
  have hgC : ∀ f : Field, f.value = none → toColF f = none := by
    intro f hv; unfold toColF; rw [hv]; rfl
  refine ⟨?_, ?_, ?_, ?_⟩
  · rw [parseObj_ok r hvalid, parseObj_ok _ hvf,
      filterMap_filter_value toPkF hgP, filterMap_filter_value toColF hgC]
  · intro hpk
    refine ⟨(sortPkFields (r.filterMap toPkF)).map PkField.toKV, ?_⟩
    rw [parseObj_ok r hvalid]
    have : r.filterMap toColF = [] := by
      rw [List.filterMap_eq_nil]
      intro f hf
      cases hv : f.value with
      | none => exact hgC f hv
      | some v =>
        have hsome : f.value.isSome = true := by rw [hv]; rfl
        unfold toColF
        rw [hv]
        simp [hpk f hf hsome]
    rw [this]
  · intro hun
    have hP : r.filterMap toPkF = [] := by
      rw [List.filterMap_eq_nil]; intro f hf; exact hgP f (hun f hf)
    have hC : r.filterMap toColF = [] := by
      rw [List.filterMap_eq_nil]; intro f hf; exact hgC f (hun f hf)
    rw [parseObj_ok r hvalid, hP, hC]
    rfl
  · rintro ⟨f, hf, hsome, hpk⟩
    obtain ⟨v, hv⟩ := Option.isSome_iff_exists.mp hsome
    have hmem : (⟨f.jsonTag, f.pkTag, v⟩ : PkField) ∈ r.filterMap toPkF := by
      refine List.mem_filterMap.mpr ⟨f, hf, ?_⟩
      simp [toPkF, hv, hpk]
    have hmem2 : (⟨f.jsonTag, f.pkTag, v⟩ : PkField) ∈
        sortPkFields (r.filterMap toPkF) :=
      (perm_sortPkFields _).mem_iff.mpr hmem
    refine ⟨(sortPkFields (r.filterMap toPkF)).map PkField.toKV, r.filterMap toColF,
      parseObj_ok r hvalid, ?_⟩
    exact List.ne_nil_of_mem (List.mem_map_of_mem PkField.toKV hmem2)

/-- C5, witness: the skip theorem applied to a record with both primary keys
set and its column unset, and to a fully-unset record. -/
theorem skips_unset_witness :
    (∃ pks, parseObj pkOnlyRec = .ok (pks, [])) ∧
    parseObj unsetRec = .ok ([], []) ∧
    (∃ pks cols, parseObj pkOnlyRec = .ok (pks, cols) ∧ pks ≠ []) :=
  ⟨(parseObj_skips_unset pkOnlyRec (by decide)).2.1 (by decide),
   (parseObj_skips_unset unsetRec (by decide)).2.2.1 (by decide),
   (parseObj_skips_unset pkOnlyRec (by decide)).2.2.2 (by decide)⟩

/-- C6: pairs whose name matches no field of the map are silently skipped —
materialisation over any pair lists equals materialisation over the pairs
whose names resolve — and a run with an unknown name still succeeds with the
matching pair applied. -/
theorem parseResult_unknown_ignored :
    (∀ (fields : List Field) (pks cols : List KeyValue),
      parseResult fields pks cols =
        parseResult fields
          (pks.filter fun kv => (fieldMapLookup fields kv.key).isSome)
          (cols.filter fun kv => (fieldMapLookup fields kv.key).isSome)) ∧
    parseResult oneColRec [] [⟨"zzz", .str "x"⟩, ⟨"a", .str "v"⟩] =
      ([⟨"FA", "a", "", .ptrStr, some (.str "v")⟩], none) := by
  constructor
  · intro fields pks cols
    unfold parseResult
    rw [← processKVs_filter]
    cases hp : processKVs "primary key" (fieldMapLookup fields) pks fields with
    | mk fs e =>
      cases e with
      | none => exact processKVs_filter _ _ cols fs
      | some err => rfl
  · decide

/-- C7: `ParseObj` is a pure function of the record, so two calls on an
unmodified record agree, and with two primary-key fields sharing the ordinal
"1" the emitted order is fixed (declaration order). -/
theorem parseObj_idempotent :
    (∀ r : List Field, parseObj r = parseObj r) ∧
    parseObj eqOrdRec = .ok ([⟨"a", .str "va"⟩, ⟨"b", .str "vb"⟩], []) :=
  ⟨fun _ => rfl, by decide⟩

/-- C8, counterexample: two set attribute fields sharing the column name "a"
produce an attribute list with two entries for that name (the earlier value
first), not a single entry holding the later value. -/
theorem attribute_collision_counterexample :
    parseObj dupRec = .ok ([], [⟨"a", .str "v1"⟩, ⟨"a", .str "v2"⟩]) ∧
    (([(⟨"a", .str "v1"⟩ : KeyValue), ⟨"a", .str "v2"⟩].filter
        (fun kv => kv.key == "a")).length = 2) := by
  refine ⟨by decide, by decide⟩

/-- C8, amended: two set non-primary-key fields sharing a (non-empty,
comma-free) column name contribute two attribute entries in declaration order
(earlier value first) without error; materialising that list writes both pairs
into the later-declared field, so the later value wins only at assignment and
the earlier field stays untouched. -/
theorem attribute_collision_lastwrite (n1 n2 tag : String) (v1 v2 : Value)
    (ft : FieldType) (hacc1 : typeAccepts ft v1 = true)
    (hacc2 : typeAccepts ft v2 = true) (htag : tag ≠ "") (hcf : commaFree tag) :
    parseObj [⟨n1, tag, "", ft, some v1⟩, ⟨n2, tag, "", ft, some v2⟩] =
      .ok ([], [⟨tag, v1⟩, ⟨tag, v2⟩]) ∧
    parseResult (zeroRecord [⟨n1, tag, "", ft, some v1⟩, ⟨n2, tag, "", ft, some v2⟩])
      [] [⟨tag, v1⟩, ⟨tag, v2⟩] =
      ([⟨n1, tag, "", ft, none⟩, ⟨n2, tag, "", ft, some v2⟩], none) := by
  have hvalid : isValidPointerType ft = true := typeAccepts_valid hacc1
  have hstrip : stripTag tag = tag := stripTag_eq_self hcf
  constructor
  · have hv : ∀ f ∈ [(⟨n1, tag, "", ft, some v1⟩ : Field), ⟨n2, tag, "", ft, some v2⟩],
        isValidPointerType f.ftype = true := by
      intro f hf
      rcases List.mem_cons.mp hf with rfl | hf
      · exact hvalid
      · rcases List.mem_cons.mp hf with rfl | hf
        · exact hvalid
        · cases hf
    rw [parseObj_ok _ hv]
    simp [toPkF, toColF, sortPkFields, List.filterMap_cons]
  · have hzr : zeroRecord [⟨n1, tag, "", ft, some v1⟩, ⟨n2, tag, "", ft, some v2⟩] =
        [⟨n1, tag, "", ft, none⟩, ⟨n2, tag, "", ft, none⟩] := by
      simp [zeroRecord]
    rw [hzr]
    have hlook : fieldMapLookup [⟨n1, tag, "", ft, none⟩, ⟨n2, tag, "", ft, none⟩] tag =
        some 1 := by
      simp [fieldMapLookup, hstrip, htag]
    have ha1 : assignToPointerField ⟨n2, tag, "", ft, none⟩ v1 =
        .ok ⟨n2, tag, "", ft, some v1⟩ := assign_ok hacc1
    have ha2 : assignToPointerField ⟨n2, tag, "", ft, some v1⟩ v2 =
        .ok ⟨n2, tag, "", ft, some v2⟩ := assign_ok hacc2
    simp only [parseResult, processKVs, hlook, List.get?, ha1, ha2, List.set]

/-- C8, witness: the amended collision theorem at two string fields named
"a" with values "v1" and "v2". -/
theorem attribute_collision_witness :
    parseObj dupRec = .ok ([], [⟨"a", .str "v1"⟩, ⟨"a", .str "v2"⟩]) ∧
    parseResult (zeroRecord dupRec) [] [⟨"a", .str "v1"⟩, ⟨"a", .str "v2"⟩] =
      ([⟨"F1", "a", "", .ptrStr, none⟩,
        ⟨"F2", "a", "", .ptrStr, some (.str "v2")⟩], none) :=
  attribute_collision_lastwrite "F1" "F2" "a" (.str "v1") (.str "v2") .ptrStr
    (by decide) (by decide) (by decide) (by decide)

/-- C9: a typed nil struct pointer is rejected by both operations with an
error instead of a panic — `ParseObj` through its struct check on the invalid
dereferenced value, `ParseResult` through its explicit nil check — and the
argument is returned untouched. -/
theorem nil_pointer_rejected (t : String) (pks cols : List KeyValue) :
    parseObjTop (.nilStructPtr t) = .error "obj must be a struct or pointer to struct" ∧
    parseResultTop (.nilStructPtr t) pks cols =
      (.nilStructPtr t,
       some ("parseResult: obj must be a non-nil pointer to struct, got " ++ t)) :=
  ⟨rfl, rfl⟩

/-- C10: `ParseObj` uses the json tag verbatim as the column name — an empty
tag is emitted as a pair named "" and `n,omitempty` is emitted whole — while
`ParseResult` strips the tag at the first comma and hides empty tags, so such
pairs are emitted but never assigned back. -/
theorem tag_handling_asymmetry :
    (∀ (f : Field) (v : Value), isValidPointerType f.ftype = true →
      f.value = some v → f.pkTag = "" →
      parseObj [f] = .ok ([], [⟨f.jsonTag, v⟩])) ∧
    parseObj emptyTagRec = .ok ([], [⟨"", .str "x"⟩]) ∧
    parseObj commaRec = .ok ([], [⟨"n,omitempty", .str "x"⟩]) ∧
    (∀ k, fieldMapLookup (zeroRecord emptyTagRec) k = none) ∧
    fieldMapLookup (zeroRecord commaRec) "n" = some 0 ∧
    fieldMapLookup (zeroRecord commaRec) "n,omitempty" = none ∧
    parseResult (zeroRecord commaRec) [] [⟨"n,omitempty", .str "x"⟩] =
      (zeroRecord commaRec, none) := by
  refine ⟨?_, by decide, by decide, ?_, by decide, by decide, by decide⟩
  · intro f v h1 h2 h3
    have hvf : ∀ g ∈ [f], isValidPointerType g.ftype = true := by
      intro g hg
      rcases List.mem_singleton.mp hg with rfl
      exact h1
    rw [parseObj_ok [f] hvf]
    simp [toPkF, toColF, h2, h3, sortPkFields, List.filterMap_cons]
  · intro k
    simp [fieldMapLookup, zeroRecord, emptyTagRec]

/-- C10, witness: the verbatim-emission lemma applied to a set field whose
tag is `n,omitempty`. -/
theorem tag_asymmetry_witness :
    parseObj [⟨"N", "n,omitempty", "", .ptrStr, some (.str "x")⟩] =
      .ok ([], [⟨"n,omitempty", Value.str "x"⟩]) :=
  tag_handling_asymmetry.1 ⟨"N", "n,omitempty", "", .ptrStr, some (.str "x")⟩
    (Value.str "x") (by decide) (by decide) (by decide)

end OtsUtils
